import Mathlib

/-!
Verification development for the DIS (Dense Inverse Search) optical flow
implementation (file src/unread_src.cpp of the opencv-DISFlow repository).

The C++ code is shallowly embedded below.  Images are total functions from
indices to pixel values (pointer strides are absorbed into two-dimensional
indexing where the code only ever indexes row-major patches; the flat
densification arrays keep their flat indexing).  All single-precision float
arithmetic of the source is modelled exactly over the rationals.
-/

namespace DISFlow

/-! ### Patch processing functions (processPatch, computeSSD, computeSSDMeanNorm)

The three functions read a patch of frame 0 (uchar values, modelled as
naturals), a window of the border-extended frame 1 addressed through the four
bilinear weights w00 w01 w10 w11, and, for processPatch, the signed 16-bit
frame-0 gradients (modelled as integers).  -/

/-- The bilinear difference computed in the inner loops of all three patch
functions: `w00*I1[i][j] + w01*I1[i][j+1] + w10*I1[i+1][j] + w11*I1[i+1][j+1]
- I0[i][j]`. -/
def diffAt (I0 I1 : ℕ → ℕ → ℕ) (w00 w01 w10 w11 : ℚ) (i j : ℕ) : ℚ :=
  w00 * (I1 i j : ℚ) + w01 * (I1 i (j + 1) : ℚ) + w10 * (I1 (i + 1) j : ℚ) +
    w11 * (I1 (i + 1) (j + 1) : ℚ) - (I0 i j : ℚ)

/-- Scalar path of processPatch: the row-major double loop accumulating
`SSD += diff*diff`, `dst_dUx += diff * I0x[i][j]`, `dst_dUy += diff * I0y[i][j]`.
The result triple is (SSD, dst_dUx, dst_dUy). -/
def processPatch_scalar (I0 I1 : ℕ → ℕ → ℕ) (I0x I0y : ℕ → ℕ → ℤ)
    (w00 w01 w10 w11 : ℚ) (patch_sz : ℕ) : ℚ × ℚ × ℚ :=
  (List.range patch_sz).foldl
    (fun s i =>
      (List.range patch_sz).foldl
        (fun t j =>
          (t.1 + diffAt I0 I1 w00 w01 w10 w11 i j ^ 2,
           t.2.1 + diffAt I0 I1 w00 w01 w10 w11 i j * (I0x i j : ℚ),
           t.2.2 + diffAt I0 I1 w00 w01 w10 w11 i j * (I0y i j : ℚ)))
        s)
    (0, 0, 0)

/-- Vectorized (CV_SIMD128) path of processPatch, used when the patch size
is 8.  Lane `l` of the four-wide accumulators receives, for every row `r`,
the contribution of columns `l` (left half) and `l + 4` (right half); the
final v_reduce_sum adds the four lanes.  -/
def processPatch_hal (I0 I1 : ℕ → ℕ → ℕ) (I0x I0y : ℕ → ℕ → ℤ)
    (w00 w01 w10 w11 : ℚ) : ℚ × ℚ × ℚ :=
  (∑ l ∈ Finset.range 4, ∑ r ∈ Finset.range 8,
      (diffAt I0 I1 w00 w01 w10 w11 r l ^ 2 +
        diffAt I0 I1 w00 w01 w10 w11 r (l + 4) ^ 2),
   ∑ l ∈ Finset.range 4, ∑ r ∈ Finset.range 8,
      (diffAt I0 I1 w00 w01 w10 w11 r l * (I0x r l : ℚ) +
        diffAt I0 I1 w00 w01 w10 w11 r (l + 4) * (I0x r (l + 4) : ℚ)),
   ∑ l ∈ Finset.range 4, ∑ r ∈ Finset.range 8,
      (diffAt I0 I1 w00 w01 w10 w11 r l * (I0y r l : ℚ) +
        diffAt I0 I1 w00 w01 w10 w11 r (l + 4) * (I0y r (l + 4) : ℚ)))

/-- processPatch: dispatches to the vectorized path exactly when
`patch_sz == 8` (the CV_SIMD128 build, which is the configuration the spec
describes), otherwise to the scalar double loop. -/
def processPatch (I0 I1 : ℕ → ℕ → ℕ) (I0x I0y : ℕ → ℕ → ℤ)
    (w00 w01 w10 w11 : ℚ) (patch_sz : ℕ) : ℚ × ℚ × ℚ :=
  if patch_sz = 8 then processPatch_hal I0 I1 I0x I0y w00 w01 w10 w11
  else processPatch_scalar I0 I1 I0x I0y w00 w01 w10 w11 patch_sz

/-- Scalar path of computeSSD: accumulates `SSD += diff*diff` over the patch. -/
def computeSSD_scalar (I0 I1 : ℕ → ℕ → ℕ) (w00 w01 w10 w11 : ℚ)
    (patch_sz : ℕ) : ℚ :=
  (List.range patch_sz).foldl
    (fun s i =>
      (List.range patch_sz).foldl
        (fun t j => t + diffAt I0 I1 w00 w01 w10 w11 i j ^ 2) s)
    0

/-- Vectorized path of computeSSD for patch size 8 (same lane layout as
processPatch_hal). -/
def computeSSD_hal (I0 I1 : ℕ → ℕ → ℕ) (w00 w01 w10 w11 : ℚ) : ℚ :=
  ∑ l ∈ Finset.range 4, ∑ r ∈ Finset.range 8,
    (diffAt I0 I1 w00 w01 w10 w11 r l ^ 2 +
      diffAt I0 I1 w00 w01 w10 w11 r (l + 4) ^ 2)

/-- computeSSD with its patch-size-8 vectorized dispatch. -/
def computeSSD (I0 I1 : ℕ → ℕ → ℕ) (w00 w01 w10 w11 : ℚ) (patch_sz : ℕ) : ℚ :=
  if patch_sz = 8 then computeSSD_hal I0 I1 w00 w01 w10 w11
  else computeSSD_scalar I0 I1 w00 w01 w10 w11 patch_sz

/-- Scalar path of computeSSDMeanNorm: accumulates the pair
(sum_diff, sum_diff_sq) over the patch and returns
`sum_diff_sq - sum_diff * sum_diff / n` with `n = patch_sz * patch_sz`. -/
def computeSSDMeanNorm_scalar (I0 I1 : ℕ → ℕ → ℕ) (w00 w01 w10 w11 : ℚ)
    (patch_sz : ℕ) : ℚ :=
  let p :=
    (List.range patch_sz).foldl
      (fun s i =>
        (List.range patch_sz).foldl
          (fun t j =>
            (t.1 + diffAt I0 I1 w00 w01 w10 w11 i j,
             t.2 + diffAt I0 I1 w00 w01 w10 w11 i j ^ 2)) s)
      (0, 0)
  p.2 - p.1 * p.1 / ((patch_sz : ℚ) * (patch_sz : ℚ))

/-- Vectorized path of computeSSDMeanNorm for patch size 8. -/
def computeSSDMeanNorm_hal (I0 I1 : ℕ → ℕ → ℕ) (w00 w01 w10 w11 : ℚ) : ℚ :=
  let sum_diff :=
    ∑ l ∈ Finset.range 4, ∑ r ∈ Finset.range 8,
      (diffAt I0 I1 w00 w01 w10 w11 r l +
        diffAt I0 I1 w00 w01 w10 w11 r (l + 4))
  let sum_diff_sq :=
    ∑ l ∈ Finset.range 4, ∑ r ∈ Finset.range 8,
      (diffAt I0 I1 w00 w01 w10 w11 r l ^ 2 +
        diffAt I0 I1 w00 w01 w10 w11 r (l + 4) ^ 2)
  sum_diff_sq - sum_diff * sum_diff / ((8 : ℚ) * (8 : ℚ))

/-- computeSSDMeanNorm with its patch-size-8 vectorized dispatch. -/
def computeSSDMeanNorm (I0 I1 : ℕ → ℕ → ℕ) (w00 w01 w10 w11 : ℚ)
    (patch_sz : ℕ) : ℚ :=
  if patch_sz = 8 then computeSSDMeanNorm_hal I0 I1 w00 w01 w10 w11
  else computeSSDMeanNorm_scalar I0 I1 w00 w01 w10 w11 patch_sz

/-! ### Densification (Densification_ParBody::operator())

The operator turns the sparse per-patch flow (Sx, Sy) into a dense per-pixel
flow by a confidence-weighted average over a sliding window of sparse grid
indices.  The C state pair (start_is, end_is) starts at (0, -1); to stay in ℕ
we represent the state as (start_is, end_is + 1), so the window of grid rows
used at pixel row i is the half-open interval [fst, snd) and the initial
state is (0, 0).  -/

/-- One execution of the UPDATE_SPARSE_I_COORDINATES (resp. ..._J_...) update block
at loop index i: `if (i % pstr == 0 and i + psz <= dim) end_is++;`
then `if (i - psz >= 0 and (i - psz) % pstr == 0 and start_is < end_is)
start_is++;` (the second component of the state is end_is + 1). -/
def slideStep (psz pstr dim : ℕ) (se : ℕ × ℕ) (i : ℕ) : ℕ × ℕ :=
  let e := if i % pstr = 0 ∧ i + psz ≤ dim then se.2 + 1 else se.2
  let s := if psz ≤ i ∧ (i - psz) % pstr = 0 ∧ se.1 + 1 < e then se.1 + 1 else se.1
  (s, e)

/-- The sliding-window state after the update block has run for loop indices
0, 1, ..., i (this is the state in effect when pixel row/column i is
processed; stripe splitting replays the same initial run of updates, so the state
only depends on i). -/
def slide (psz pstr dim : ℕ) : ℕ → ℕ × ℕ
  | 0 => slideStep psz pstr dim (0, 0) 0
  | i + 1 => slideStep psz pstr dim (slide psz pstr dim i) (i + 1)

/-- EPS of the source (#define EPS 0.001F), modelled exactly. -/
def EPS : ℚ := 1 / 1000

/-- Truncation toward zero, the semantics of the C cast (int) applied to a
(finite) floating point value. -/
def ratTrunc (q : ℚ) : ℤ := if 0 ≤ q then ⌊q⌋ else -⌊-q⌋

/-- The clamp applied to a sampling coordinate before bilinear interpolation:
`min(max(x, 0.0f), dim - 1.0f - EPS)`. -/
def clampCoord (dim : ℕ) (x : ℚ) : ℚ := min (max x 0) ((dim : ℚ) - 1 - EPS)

/-- The lower integer sampling index derived from a clamped coordinate:
`j_l = (int)j_m` (the upper index is `j_l + 1`). -/
def sampleLow (dim : ℕ) (x : ℚ) : ℤ := ratTrunc (clampCoord dim x)

/-- The bilinear residual computed for one overlapping patch inside the
densification loop: frame 1 sampled at (i, j) + (sx, sy) (with clamped
coordinates) minus frame0(i, j).  The frames are flat row-major arrays of
uchar values accessed at signed indices, exactly like the C pointers. -/
def bilinDiff (I0 I1 : ℤ → ℕ) (w h : ℕ) (i j : ℕ) (sx sy : ℚ) : ℚ :=
  let j_m := clampCoord w ((j : ℚ) + sx)
  let i_m := clampCoord h ((i : ℚ) + sy)
  let j_l := sampleLow w ((j : ℚ) + sx)
  let j_u := j_l + 1
  let i_l := sampleLow h ((i : ℚ) + sy)
  let i_u := i_l + 1
  (j_m - (j_l : ℚ)) * (i_m - (i_l : ℚ)) * (I1 (i_u * w + j_u) : ℚ) +
    ((j_u : ℚ) - j_m) * (i_m - (i_l : ℚ)) * (I1 (i_u * w + j_l) : ℚ) +
    (j_m - (j_l : ℚ)) * ((i_u : ℚ) - i_m) * (I1 (i_l * w + j_u) : ℚ) +
    ((j_u : ℚ) - j_m) * ((i_u : ℚ) - i_m) * (I1 (i_l * w + j_l) : ℚ) -
    (I0 (i * w + j) : ℚ)

/-- The confidence weight of one overlapping patch (is, js) at pixel (i, j):
`coef = 1 / max(1.0f, abs(diff))` where the patch displacement is read from
the flat sparse arrays at index `is * ws + js`. -/
def densCoef (I0 I1 : ℤ → ℕ) (Sx Sy : ℕ → ℚ) (w h ws : ℕ) (i j is js : ℕ) : ℚ :=
  1 / max 1 |bilinDiff I0 I1 w h i j (Sx (is * ws + js)) (Sy (is * ws + js))|

/-- The three accumulators of the innermost densification loop, summed over a
given set of grid rows and grid columns: (sum_coef, sum_Ux, sum_Uy). -/
def densSums (I0 I1 : ℤ → ℕ) (Sx Sy : ℕ → ℚ) (w h ws : ℕ)
    (rows cols : Finset ℕ) (i j : ℕ) : ℚ × ℚ × ℚ :=
  (∑ is ∈ rows, ∑ js ∈ cols, densCoef I0 I1 Sx Sy w h ws i j is js,
   ∑ is ∈ rows, ∑ js ∈ cols,
      densCoef I0 I1 Sx Sy w h ws i j is js * Sx (is * ws + js),
   ∑ is ∈ rows, ∑ js ∈ cols,
      densCoef I0 I1 Sx Sy w h ws i j is js * Sy (is * ws + js))

/-- The total confidence weight sum_coef accumulated at pixel (i, j), over
the sliding windows the code maintains. -/
def densSumCoef (I0 I1 : ℤ → ℕ) (Sx Sy : ℕ → ℚ) (w h ws psz pstr : ℕ)
    (i j : ℕ) : ℚ :=
  (densSums I0 I1 Sx Sy w h ws
      (Finset.Ico (slide psz pstr h i).1 (slide psz pstr h i).2)
      (Finset.Ico (slide psz pstr w j).1 (slide psz pstr w j).2) i j).1

/-- The dense flow value (Ux, Uy) the densification pass writes at pixel
(i, j): `(sum_Ux / sum_coef, sum_Uy / sum_coef)` with the sums taken over the
sliding window of sparse grid indices. -/
def densifyPixel (I0 I1 : ℤ → ℕ) (Sx Sy : ℕ → ℚ) (w h ws psz pstr : ℕ)
    (i j : ℕ) : ℚ × ℚ :=
  let t := densSums I0 I1 Sx Sy w h ws
    (Finset.Ico (slide psz pstr h i).1 (slide psz pstr h i).2)
    (Finset.Ico (slide psz pstr w j).1 (slide psz pstr w j).2) i j
  (t.2.1 / t.1, t.2.2 / t.1)

/-- The set of sparse grid indices along one axis whose patch footprint
covers coordinate i: anchors k with `k*pstr <= i < k*pstr + psz` and
`k*pstr + psz <= dim` (k < dim + 1 is a generous bound; every such k
satisfies it when pstr >= 1 and psz >= 1). -/
def coverIdx (psz pstr dim i : ℕ) : Finset ℕ :=
  (Finset.range (dim + 1)).filter fun k =>
    k * pstr ≤ i ∧ i < k * pstr + psz ∧ k * pstr + psz ≤ dim

/-- Modelled from the spec (section 4.5 Densifier): the dense flow value at
pixel (i, j) as the spec words it, a weighted average over exactly those
patches whose footprint covers (i, j), with the same residual-based weights.
Used as the comparison point for the refinement claim about densification. -/
def densifyPixel_spec (I0 I1 : ℤ → ℕ) (Sx Sy : ℕ → ℚ) (w h ws psz pstr : ℕ)
    (i j : ℕ) : ℚ × ℚ :=
  let t := densSums I0 I1 Sx Sy w h ws
    (coverIdx psz pstr h i) (coverIdx psz pstr w j) i j
  (t.2.1 / t.1, t.2.2 / t.1)

/-- Helper for the closed form of the sliding window: the number of patch
anchors along one axis that have expired before coordinate i, namely anchors
a = k*pstr with a + psz <= i. -/
def expCount (psz pstr i : ℕ) : ℕ :=
  if i < psz then 0 else (i - psz) / pstr + 1

/-! ### Entry validation of DISOpticalFlowImpl::calc

The entry sequence of calc is: five CV_Assert checks (emptiness, depth,
channel count of both inputs; equal sizes; contiguity of both inputs), then
the output flow buffer is (re)allocated via `flow.create` unless the supplied
flow already matches (same size as the input, 32-bit float, 2 channels), then
`coarsest_scale` is computed from the image dimensions and a StsBadSize error
is raised when it is negative.  The model records which error (if any) is
raised and whether the output flow buffer was touched before returning. -/

/-- OpenCV depth code CV_8U. -/
def CV_8U : ℕ := 0

/-- OpenCV depth code CV_32F. -/
def CV_32F : ℕ := 5

/-- The header information of a cv::Mat / InputArray that the calc entry
checks inspect. -/
structure MatInfo where
  rows : ℕ
  cols : ℕ
  depth : ℕ
  channels : ℕ
  continuous : Bool

/-- InputArray::empty for the modelled headers: no pixels. -/
def matEmpty (m : MatInfo) : Bool := m.rows == 0 || m.cols == 0

/-- InputArray::sameSize. -/
def sameSize (a b : MatInfo) : Bool := a.rows == b.rows && a.cols == b.cols

/-- Whether the five CV_Assert checks at the top of calc all pass. -/
def passesAsserts (i0 i1 : MatInfo) : Bool :=
  !matEmpty i0 && (i0.depth == CV_8U) && (i0.channels == 1) &&
  (!matEmpty i1 && (i1.depth == CV_8U) && (i1.channels == 1)) &&
  sameSize i0 i1 && i0.continuous && i1.continuous

/-- Whether the supplied flow buffer is accepted as an initial flow
(`flow.sameSize(I0) and flow.depth() == CV_32F and flow.channels() == 2`);
otherwise calc calls `flow.create`, (re)allocating the output buffer. -/
def flowMatches (flow i0 : MatInfo) : Bool :=
  sameSize flow i0 && (flow.depth == CV_32F) && (flow.channels == 2)

/-- Fuel-based floor of log2 on ℕ, written with a bare Nat.rec so that it
stays kernel-reducible (the fuel only bounds the recursion depth; the value
argument halves at every step). -/
def log2floorAux (fuel : ℕ) : ℕ → ℕ :=
  Nat.rec (motive := fun _ => ℕ → ℕ) (fun _ => 0)
    (fun _ ih n => if n ≤ 1 then 0 else ih (n / 2) + 1) fuel

/-- Floor of the base-2 logarithm of a positive natural (0 for inputs 0, 1). -/
def log2floor (n : ℕ) : ℕ := log2floorAux n n

/-- Models the C expression `(int)(std::log2((float)n / (float)d) + 0.5)`
for n, d >= 1, evaluated over the exact reals (the double rounding error of
the actual log call is far below the distance of any integer input to a
discontinuity of this function).  Derivation: with r = n/d, the cast
truncates toward zero; for r*r*2 >= 1 the value is
floor(log2(2*r^2)) / 2 (floor division), and floor(log2(2*r^2)) =
log2floor(2*n^2 / d^2) with natural division; for r*r*2 < 1 it is
-((floor(log2(d^2/n^2)) - 1) / 2).  No integer tie can occur because
sqrt 2 is irrational. -/
def truncLog2Half (n d : ℕ) : ℤ :=
  if d ^ 2 ≤ 2 * n ^ 2 then ((log2floor (2 * n ^ 2 / d ^ 2) / 2 : ℕ) : ℤ)
  else -(((log2floor (d ^ 2 / n ^ 2) - 1) / 2 : ℕ) : ℤ)

/-- Models the C expression `(int)(log(mn / ps) / log(2.0))` where `mn / ps`
is an integer division.  When the quotient is zero, log(0) is minus
infinity and the conversion to int is undefined behaviour that yields a
(large) negative value on the targets OpenCV runs on; the model uses -2^31. -/
def logTermMin (mn ps : ℕ) : ℤ :=
  if mn / ps = 0 then -(2 ^ 31) else (log2floor (mn / ps) : ℤ)

/-- The coarsest_scale computed in calc:
`min((int)(log(max(cols, rows) / (4.0 * patch_size)) / log(2.0) + 0.5),
(int)(log(min(cols, rows) / patch_size) / log(2.0)))`. -/
def coarsestScaleCalc (rows cols ps : ℕ) : ℤ :=
  min (truncLog2Half (max cols rows) (4 * ps)) (logTermMin (min cols rows) ps)

/-- The errors the calc entry sequence can raise: a CV_Assert failure
(precondition violation) or the CV_Error(StsBadSize, ...) for images whose
computed coarsest scale is negative. -/
inductive CalcErr where
  | assertFail : CalcErr
  | badSize : CalcErr
deriving DecidableEq

/-- Outcome of the calc entry sequence: the error raised (if any) and
whether the caller-visible output flow buffer was (re)allocated before the
entry sequence finished. -/
structure CalcResult where
  error : Option CalcErr
  flowMutated : Bool
deriving DecidableEq

/-- The entry sequence of DISOpticalFlowImpl::calc, in source order: the five
asserts, then the conditional `flow.create` (which touches the caller
buffer), then the coarsest-scale size check.  (calc is a reserved word in
Lean, hence the name.) -/
def calcEntry (i0 i1 flow : MatInfo) (ps : ℕ) : CalcResult :=
  if matEmpty i0 || !(i0.depth == CV_8U) || !(i0.channels == 1) then
    ⟨some .assertFail, false⟩
  else if matEmpty i1 || !(i1.depth == CV_8U) || !(i1.channels == 1) then
    ⟨some .assertFail, false⟩
  else if !sameSize i0 i1 then ⟨some .assertFail, false⟩
  else if !i0.continuous then ⟨some .assertFail, false⟩
  else if !i1.continuous then ⟨some .assertFail, false⟩
  else
    let mutated := !flowMatches flow i0
    if coarsestScaleCalc i0.rows i0.cols ps < 0 then ⟨some .badSize, mutated⟩
    else ⟨none, mutated⟩

/-! ### Pyramid dimensions built by prepareBuffers

The loop index i runs from 0 to coarsest_scale with `fraction = 2^i`.  The
running (cur_rows, cur_cols) starts at (0, 0), is set to the full-resolution
dimensions divided by 2^finest_scale when i reaches finest_scale (the level
is resized directly from the input), and is halved for every i above
finest_scale; levels below finest_scale are skipped. -/

/-- Dimensions (rows, cols) of pyramid level i as computed by the
prepareBuffers loop, given the full-resolution dimensions (R, C) and
finest_scale f. -/
def levelDims (R C f : ℕ) : ℕ → ℕ × ℕ
  | 0 => if f = 0 then (R / 2 ^ 0, C / 2 ^ 0) else (0, 0)
  | i + 1 =>
    if i + 1 = f then (R / 2 ^ (i + 1), C / 2 ^ (i + 1))
    else if f < i + 1 then
      ((levelDims R C f i).1 / 2, (levelDims R C f i).2 / 2)
    else (0, 0)

/-! ### Helper lemmas: loop accumulation as summation -/

theorem foldl_add_const (g : ℕ → ℚ) (l : List ℕ) :
    ∀ c : ℚ, l.foldl (fun a x => a + g x) c = c + (l.map g).sum := by
  induction l with
  | nil => intro c; simp
  | cons hd tl ih =>
    intro c
    simp only [List.foldl_cons, List.map_cons, List.sum_cons, ih]
    ring

theorem foldl_add_pair (f g : ℕ → ℚ) (l : List ℕ) :
    ∀ c : ℚ × ℚ, l.foldl (fun a x => (a.1 + f x, a.2 + g x)) c =
      (c.1 + (l.map f).sum, c.2 + (l.map g).sum) := by
  induction l with
  | nil => intro c; simp
  | cons hd tl ih =>
    intro c
    simp only [List.foldl_cons, List.map_cons, List.sum_cons, ih]
    rw [Prod.mk.injEq]
    constructor <;> ring

theorem foldl_add_triple (f g k : ℕ → ℚ) (l : List ℕ) :
    ∀ c : ℚ × ℚ × ℚ,
      l.foldl (fun a x => (a.1 + f x, a.2.1 + g x, a.2.2 + k x)) c =
        (c.1 + (l.map f).sum, c.2.1 + (l.map g).sum, c.2.2 + (l.map k).sum) := by
  induction l with
  | nil => intro c; simp
  | cons hd tl ih =>
    intro c
    simp only [List.foldl_cons, List.map_cons, List.sum_cons, ih]
    rw [Prod.mk.injEq, Prod.mk.injEq]
    refine ⟨by ring, by ring, by ring⟩

theorem range_map_sum (g : ℕ → ℚ) : ∀ n : ℕ,
    ((List.range n).map g).sum = ∑ x ∈ Finset.range n, g x := by
  intro n
  induction n with
  | zero => simp
  | succ n ih =>
    rw [List.range_succ, List.map_append, List.sum_append, Finset.sum_range_succ, ih]
    simp

theorem computeSSD_scalar_eq (I0 I1 : ℕ → ℕ → ℕ) (w00 w01 w10 w11 : ℚ) (psz : ℕ) :
    computeSSD_scalar I0 I1 w00 w01 w10 w11 psz =
      ∑ i ∈ Finset.range psz, ∑ j ∈ Finset.range psz,
        diffAt I0 I1 w00 w01 w10 w11 i j ^ 2 := by
  unfold computeSSD_scalar
  simp only [foldl_add_const, range_map_sum, zero_add]

theorem processPatch_scalar_eq (I0 I1 : ℕ → ℕ → ℕ) (I0x I0y : ℕ → ℕ → ℤ)
    (w00 w01 w10 w11 : ℚ) (psz : ℕ) :
    processPatch_scalar I0 I1 I0x I0y w00 w01 w10 w11 psz =
      (∑ i ∈ Finset.range psz, ∑ j ∈ Finset.range psz,
          diffAt I0 I1 w00 w01 w10 w11 i j ^ 2,
       ∑ i ∈ Finset.range psz, ∑ j ∈ Finset.range psz,
          diffAt I0 I1 w00 w01 w10 w11 i j * (I0x i j : ℚ),
       ∑ i ∈ Finset.range psz, ∑ j ∈ Finset.range psz,
          diffAt I0 I1 w00 w01 w10 w11 i j * (I0y i j : ℚ)) := by
  unfold processPatch_scalar
  simp only [foldl_add_triple, range_map_sum, zero_add]

theorem computeSSDMeanNorm_scalar_eq (I0 I1 : ℕ → ℕ → ℕ)
    (w00 w01 w10 w11 : ℚ) (psz : ℕ) :
    computeSSDMeanNorm_scalar I0 I1 w00 w01 w10 w11 psz =
      (∑ i ∈ Finset.range psz, ∑ j ∈ Finset.range psz,
          diffAt I0 I1 w00 w01 w10 w11 i j ^ 2) -
        (∑ i ∈ Finset.range psz, ∑ j ∈ Finset.range psz,
            diffAt I0 I1 w00 w01 w10 w11 i j) ^ 2 /
          ((psz : ℚ) * (psz : ℚ)) := by
  unfold computeSSDMeanNorm_scalar
  simp only [foldl_add_pair, range_map_sum, zero_add]
  ring

theorem sum4_shift (f : ℕ → ℚ) :
    ∑ l ∈ Finset.range 4, (f l + f (l + 4)) = ∑ j ∈ Finset.range 8, f j := by
  simp [Finset.sum_range_succ]
  ring

theorem computeSSD_hal_eq (I0 I1 : ℕ → ℕ → ℕ) (w00 w01 w10 w11 : ℚ) :
    computeSSD_hal I0 I1 w00 w01 w10 w11 =
      ∑ i ∈ Finset.range 8, ∑ j ∈ Finset.range 8,
        diffAt I0 I1 w00 w01 w10 w11 i j ^ 2 := by
  unfold computeSSD_hal
  rw [Finset.sum_comm]
  exact Finset.sum_congr rfl fun r _ =>
    sum4_shift fun j => diffAt I0 I1 w00 w01 w10 w11 r j ^ 2

theorem processPatch_hal_eq (I0 I1 : ℕ → ℕ → ℕ) (I0x I0y : ℕ → ℕ → ℤ)
    (w00 w01 w10 w11 : ℚ) :
    processPatch_hal I0 I1 I0x I0y w00 w01 w10 w11 =
      (∑ i ∈ Finset.range 8, ∑ j ∈ Finset.range 8,
          diffAt I0 I1 w00 w01 w10 w11 i j ^ 2,
       ∑ i ∈ Finset.range 8, ∑ j ∈ Finset.range 8,
          diffAt I0 I1 w00 w01 w10 w11 i j * (I0x i j : ℚ),
       ∑ i ∈ Finset.range 8, ∑ j ∈ Finset.range 8,
          diffAt I0 I1 w00 w01 w10 w11 i j * (I0y i j : ℚ)) := by
  unfold processPatch_hal
  refine Prod.ext ?_ (Prod.ext ?_ ?_) <;> simp only
  · rw [Finset.sum_comm]
    exact Finset.sum_congr rfl fun r _ =>
      sum4_shift fun j => diffAt I0 I1 w00 w01 w10 w11 r j ^ 2
  · rw [Finset.sum_comm]
    exact Finset.sum_congr rfl fun r _ =>
      sum4_shift fun j => diffAt I0 I1 w00 w01 w10 w11 r j * (I0x r j : ℚ)
  · rw [Finset.sum_comm]
    exact Finset.sum_congr rfl fun r _ =>
      sum4_shift fun j => diffAt I0 I1 w00 w01 w10 w11 r j * (I0y r j : ℚ)

theorem computeSSDMeanNorm_hal_eq (I0 I1 : ℕ → ℕ → ℕ) (w00 w01 w10 w11 : ℚ) :
    computeSSDMeanNorm_hal I0 I1 w00 w01 w10 w11 =
      (∑ i ∈ Finset.range 8, ∑ j ∈ Finset.range 8,
          diffAt I0 I1 w00 w01 w10 w11 i j ^ 2) -
        (∑ i ∈ Finset.range 8, ∑ j ∈ Finset.range 8,
            diffAt I0 I1 w00 w01 w10 w11 i j) ^ 2 / ((8 : ℚ) * (8 : ℚ)) := by
  unfold computeSSDMeanNorm_hal
  have h1 : (∑ l ∈ Finset.range 4, ∑ r ∈ Finset.range 8,
      (diffAt I0 I1 w00 w01 w10 w11 r l +
        diffAt I0 I1 w00 w01 w10 w11 r (l + 4))) =
      ∑ i ∈ Finset.range 8, ∑ j ∈ Finset.range 8,
        diffAt I0 I1 w00 w01 w10 w11 i j := by
    rw [Finset.sum_comm]
    exact Finset.sum_congr rfl fun r _ =>
      sum4_shift fun j => diffAt I0 I1 w00 w01 w10 w11 r j
  have h2 : (∑ l ∈ Finset.range 4, ∑ r ∈ Finset.range 8,
      (diffAt I0 I1 w00 w01 w10 w11 r l ^ 2 +
        diffAt I0 I1 w00 w01 w10 w11 r (l + 4) ^ 2)) =
      ∑ i ∈ Finset.range 8, ∑ j ∈ Finset.range 8,
        diffAt I0 I1 w00 w01 w10 w11 i j ^ 2 := by
    rw [Finset.sum_comm]
    exact Finset.sum_congr rfl fun r _ =>
      sum4_shift fun j => diffAt I0 I1 w00 w01 w10 w11 r j ^ 2
  rw [h1, h2]
  ring

/-! ### Claim theorems for the patch functions -/

/-- Claim C3: for every patch size, patches, and bilinear weights summing
to 1, computeSSD returns the sum over the patch of diff squared (diff being
the weighted bilinear sample of I1 minus I0), and computeSSDMeanNorm returns
that sum minus the square of the sum of diffs divided by
N = patch_sz * patch_sz. -/
theorem computeSSD_returns_ssd_and_meanNorm (I0 I1 : ℕ → ℕ → ℕ)
    (w00 w01 w10 w11 : ℚ) (psz : ℕ) (hw : w00 + w01 + w10 + w11 = 1) :
    computeSSD I0 I1 w00 w01 w10 w11 psz =
      (∑ i ∈ Finset.range psz, ∑ j ∈ Finset.range psz,
        diffAt I0 I1 w00 w01 w10 w11 i j ^ 2) ∧
    computeSSDMeanNorm I0 I1 w00 w01 w10 w11 psz =
      (∑ i ∈ Finset.range psz, ∑ j ∈ Finset.range psz,
          diffAt I0 I1 w00 w01 w10 w11 i j ^ 2) -
        (∑ i ∈ Finset.range psz, ∑ j ∈ Finset.range psz,
            diffAt I0 I1 w00 w01 w10 w11 i j) ^ 2 /
          ((psz : ℚ) * (psz : ℚ)) := by
  constructor
  · unfold computeSSD
    by_cases hpsz : psz = 8
    · subst hpsz
      rw [if_pos rfl, computeSSD_hal_eq]
    · rw [if_neg hpsz, computeSSD_scalar_eq]
  · unfold computeSSDMeanNorm
    by_cases hpsz : psz = 8
    · subst hpsz
      rw [if_pos rfl, computeSSDMeanNorm_hal_eq]
      norm_num
    · rw [if_neg hpsz, computeSSDMeanNorm_scalar_eq]

/-- Witness for C3 at a concrete input (patch size 2, weights (1,0,0,0)). -/
theorem computeSSD_returns_ssd_and_meanNorm_witness :
    (1 + 0 + 0 + 0 : ℚ) = 1 ∧
    (computeSSD (fun _ _ => 0) (fun i j => i + j) 1 0 0 0 2 =
      (∑ i ∈ Finset.range 2, ∑ j ∈ Finset.range 2,
        diffAt (fun _ _ => 0) (fun i j => i + j) 1 0 0 0 i j ^ 2) ∧
    computeSSDMeanNorm (fun _ _ => 0) (fun i j => i + j) 1 0 0 0 2 =
      (∑ i ∈ Finset.range 2, ∑ j ∈ Finset.range 2,
          diffAt (fun _ _ => 0) (fun i j => i + j) 1 0 0 0 i j ^ 2) -
        (∑ i ∈ Finset.range 2, ∑ j ∈ Finset.range 2,
            diffAt (fun _ _ => 0) (fun i j => i + j) 1 0 0 0 i j) ^ 2 /
          (((2 : ℕ) : ℚ) * ((2 : ℕ) : ℚ))) :=
  ⟨by norm_num,
   computeSSD_returns_ssd_and_meanNorm (fun _ _ => 0) (fun i j => i + j)
     1 0 0 0 2 (by norm_num)⟩

/-- Claim C4: for every patch size, patches, bilinear weights, and gradient
patches, processPatch returns the sum of squared diffs and produces
dst_dUx = sum of diff * I0x and dst_dUy = sum of diff * I0y over the patch. -/
theorem processPatch_returns_ssd_and_gradient_sums (I0 I1 : ℕ → ℕ → ℕ)
    (I0x I0y : ℕ → ℕ → ℤ) (w00 w01 w10 w11 : ℚ) (psz : ℕ) :
    processPatch I0 I1 I0x I0y w00 w01 w10 w11 psz =
      (∑ i ∈ Finset.range psz, ∑ j ∈ Finset.range psz,
          diffAt I0 I1 w00 w01 w10 w11 i j ^ 2,
       ∑ i ∈ Finset.range psz, ∑ j ∈ Finset.range psz,
          diffAt I0 I1 w00 w01 w10 w11 i j * (I0x i j : ℚ),
       ∑ i ∈ Finset.range psz, ∑ j ∈ Finset.range psz,
          diffAt I0 I1 w00 w01 w10 w11 i j * (I0y i j : ℚ)) := by
  unfold processPatch
  by_cases hpsz : psz = 8
  · subst hpsz
    rw [if_pos rfl, processPatch_hal_eq]
  · rw [if_neg hpsz, processPatch_scalar_eq]

/-! ### Claim theorems for the calc entry sequence and the pyramid -/

/-- Claim C1 counterexample: for an 8 x 8 input pair (valid type, too small),
calc raises the StsBadSize error but only after the output flow buffer has
been allocated by flow.create (the supplied flow did not match), so the
caller buffer is not exactly as it was before the call. -/
theorem calc_badSize_after_flow_create :
    (calcEntry ⟨8, 8, CV_8U, 1, true⟩ ⟨8, 8, CV_8U, 1, true⟩
        ⟨0, 0, CV_8U, 0, true⟩ 8).error = some CalcErr.badSize ∧
    (calcEntry ⟨8, 8, CV_8U, 1, true⟩ ⟨8, 8, CV_8U, 1, true⟩
        ⟨0, 0, CV_8U, 0, true⟩ 8).flowMutated = true := by
  decide

/-- Claim C1 amended: the five CV_Assert precondition checks fail before any
buffer allocation or mutation, but the minimum-size (StsBadSize) check runs
after the conditional flow.create: the output buffer is touched by a failing
call exactly when all asserts passed and the supplied flow buffer did not
already match the input (same size, 32F, 2 channels). -/
theorem calc_flowMutated_iff_asserts_passed (i0 i1 flow : MatInfo) (ps : ℕ) :
    (calcEntry i0 i1 flow ps).flowMutated =
      (passesAsserts i0 i1 && !flowMatches flow i0) := by
  unfold calcEntry passesAsserts
  split_ifs with h1 h2 h3 h4 h5 h6 <;> simp_all <;> (intros; simp_all)

/-- Claim C2 counterexample: an 11 x 12 input pair has smallest dimension
11 < 12, yet calc does not raise the size error (the computed coarsest scale
is 0); the size check does not reduce to a threshold on the minimum
dimension alone. -/
theorem calc_min_dim_11_no_size_error :
    min 11 12 < 12 ∧
    (calcEntry ⟨11, 12, CV_8U, 1, true⟩ ⟨11, 12, CV_8U, 1, true⟩
        ⟨0, 0, CV_8U, 0, true⟩ 8).error = none := by
  decide

theorem truncLog2Half_32_neg_iff (m : ℕ) (hm : 1 ≤ m) :
    truncLog2Half m 32 < 0 ↔ m < 12 := by
  unfold truncLog2Half
  by_cases h : (32 : ℕ) ^ 2 ≤ 2 * m ^ 2
  · rw [if_pos h]
    norm_num at h
    have h23 : 23 ≤ m := by
      by_contra hlt
      push_neg at hlt
      have h22 : m ^ 2 ≤ 22 ^ 2 := Nat.pow_le_pow_left (by omega) 2
      norm_num at h22
      omega
    have h0 : (0 : ℤ) ≤ ((log2floor (2 * m ^ 2 / 32 ^ 2) / 2 : ℕ) : ℤ) :=
      Int.natCast_nonneg _
    omega
  · rw [if_neg h]
    norm_num at h
    have h22 : m ≤ 22 := by
      by_contra hgt
      push_neg at hgt
      have h23 : 23 ^ 2 ≤ m ^ 2 := Nat.pow_le_pow_left (by omega) 2
      norm_num at h23
      omega
    interval_cases m <;> decide

theorem logTermMin_8_neg_iff (m : ℕ) : logTermMin m 8 < 0 ↔ m < 8 := by
  unfold logTermMin
  by_cases h : m / 8 = 0
  · rw [if_pos h]
    norm_num
    omega
  · rw [if_neg h]
    have h0 : (0 : ℤ) ≤ (log2floor (m / 8) : ℤ) := Int.natCast_nonneg _
    omega

theorem coarsestScaleCalc_neg_iff (r c : ℕ) (hr : 1 ≤ r) (hc : 1 ≤ c) :
    coarsestScaleCalc r c 8 < 0 ↔ max r c < 12 ∨ min r c < 8 := by
  unfold coarsestScaleCalc
  rw [min_lt_iff]
  have h32 : 4 * 8 = 32 := by norm_num
  rw [h32, truncLog2Half_32_neg_iff (max c r) (by omega), logTermMin_8_neg_iff]
  omega

/-- Claim C2 amended: for equal-size single-channel 8-bit contiguous
non-empty inputs with default patch size 8, calc raises the size error if
and only if the larger image dimension is below 12 or the smaller one is
below 8 (so a square image of side 12 succeeds and one of side 11 fails,
but e.g. an 11 x 12 image also succeeds). -/
theorem calc_size_error_iff (r c : ℕ) (hr : 1 ≤ r) (hc : 1 ≤ c)
    (flow : MatInfo) :
    (calcEntry ⟨r, c, CV_8U, 1, true⟩ ⟨r, c, CV_8U, 1, true⟩ flow 8).error =
        some CalcErr.badSize ↔
      (max r c < 12 ∨ min r c < 8) := by
  obtain ⟨r, rfl⟩ : ∃ r0, r = r0 + 1 := ⟨r - 1, by omega⟩
  obtain ⟨c, rfl⟩ : ∃ c0, c = c0 + 1 := ⟨c - 1, by omega⟩
  rw [← coarsestScaleCalc_neg_iff (r + 1) (c + 1) (by omega) (by omega)]
  unfold calcEntry matEmpty sameSize
  simp only [CV_8U]
  norm_num
  split_ifs with hcs <;> simp_all

/-- Witness for the amended C2 at the boundary image size 12 x 12. -/
theorem calc_size_error_iff_witness :
    ((1 ≤ 12) ∧ (1 ≤ 12)) ∧
    ((calcEntry ⟨12, 12, CV_8U, 1, true⟩ ⟨12, 12, CV_8U, 1, true⟩
        ⟨0, 0, CV_8U, 0, true⟩ 8).error = some CalcErr.badSize ↔
      (max 12 12 < 12 ∨ min 12 12 < 8)) :=
  ⟨⟨by decide, by decide⟩,
   calc_size_error_iff 12 12 (by decide) (by decide) ⟨0, 0, CV_8U, 0, true⟩⟩

/-- Claim C9: for every input and every pyramid level i between
finest_scale and coarsest_scale, the dimensions of level i+1 are the floor
halves of those of level i, and level finest_scale has the full-resolution
dimensions divided by 2^finest_scale (being resized directly from the
input). -/
theorem pyramid_level_dims (R C f c i : ℕ) (hf : f ≤ i) (hc : i + 1 ≤ c) :
    levelDims R C f (i + 1) =
        ((levelDims R C f i).1 / 2, (levelDims R C f i).2 / 2) ∧
    levelDims R C f f = (R / 2 ^ f, C / 2 ^ f) := by
  constructor
  · have h1 : ¬(i + 1 = f) := by omega
    have h2 : f < i + 1 := by omega
    simp [levelDims, h1, h2]
  · cases f with
    | zero => simp [levelDims]
    | succ g => simp [levelDims]

/-- Witness for C9 at a concrete input (24 x 16 image, finest scale 0). -/
theorem pyramid_level_dims_witness :
    ((0 : ℕ) ≤ 0 ∧ 0 + 1 ≤ 1) ∧
    (levelDims 24 16 0 (0 + 1) =
        ((levelDims 24 16 0 0).1 / 2, (levelDims 24 16 0 0).2 / 2) ∧
     levelDims 24 16 0 0 = (24 / 2 ^ 0, 16 / 2 ^ 0)) :=
  ⟨⟨by decide, by decide⟩, pyramid_level_dims 24 16 0 1 0 (by decide) (by decide)⟩

/-! ### Densification: sampling bounds and window facts -/

theorem clampCoord_bounds (dim : ℕ) (x : ℚ) (h2 : 2 ≤ dim) :
    0 ≤ clampCoord dim x ∧ clampCoord dim x ≤ (dim : ℚ) - 1 - EPS := by
  have hdim : (2 : ℚ) ≤ (dim : ℚ) := by exact_mod_cast h2
  have hub : (0 : ℚ) ≤ (dim : ℚ) - 1 - EPS := by unfold EPS; linarith
  exact ⟨le_min (le_max_right x 0) hub, min_le_right _ _⟩

theorem sampleLow_bounds (dim : ℕ) (x : ℚ) (h2 : 2 ≤ dim) :
    0 ≤ sampleLow dim x ∧ sampleLow dim x + 1 ≤ (dim : ℤ) - 1 := by
  obtain ⟨hc0, hc1⟩ := clampCoord_bounds dim x h2
  have hs : sampleLow dim x = ⌊clampCoord dim x⌋ := by
    unfold sampleLow ratTrunc
    rw [if_pos hc0]
  have hdim : (2 : ℚ) ≤ (dim : ℚ) := by exact_mod_cast h2
  constructor
  · rw [hs]; exact Int.floor_nonneg.mpr hc0
  · rw [hs]
    have hfl : ⌊clampCoord dim x⌋ ≤ ⌊(dim : ℚ) - 1 - EPS⌋ := Int.floor_le_floor hc1
    have hval : ⌊(dim : ℚ) - 1 - EPS⌋ = (dim : ℤ) - 2 := by
      rw [Int.floor_eq_iff]
      constructor
      · push_cast; unfold EPS; linarith
      · push_cast; unfold EPS; linarith
    omega

/-- Claim C10: for every displacement (sx, sy), whatever its magnitude or
sign, the sampling coordinates in densification are clamped to
[0, w-1-EPS] and [0, h-1-EPS], and the resulting integer sample indices
satisfy 0 <= j_l, j_u = j_l + 1 <= w - 1 and 0 <= i_l, i_u = i_l + 1 <= h - 1,
so every frame read stays inside the image. -/
theorem densify_sample_indices_in_bounds (w h : ℕ) (sx sy : ℚ) (i j : ℕ)
    (hw : 2 ≤ w) (hh : 2 ≤ h) :
    (0 ≤ clampCoord w ((j : ℚ) + sx) ∧
      clampCoord w ((j : ℚ) + sx) ≤ (w : ℚ) - 1 - EPS) ∧
    (0 ≤ clampCoord h ((i : ℚ) + sy) ∧
      clampCoord h ((i : ℚ) + sy) ≤ (h : ℚ) - 1 - EPS) ∧
    (0 ≤ sampleLow w ((j : ℚ) + sx) ∧
      sampleLow w ((j : ℚ) + sx) + 1 ≤ (w : ℤ) - 1) ∧
    (0 ≤ sampleLow h ((i : ℚ) + sy) ∧
      sampleLow h ((i : ℚ) + sy) + 1 ≤ (h : ℤ) - 1) :=
  ⟨clampCoord_bounds w _ hw, clampCoord_bounds h _ hh,
   sampleLow_bounds w _ hw, sampleLow_bounds h _ hh⟩

/-- Witness for C10 at a concrete input (2 x 2 image, displacement far out
of bounds on both sides). -/
theorem densify_sample_indices_in_bounds_witness :
    ((2 ≤ 2) ∧ (2 ≤ 2)) ∧
    ((0 ≤ clampCoord 2 ((0 : ℚ) + (-5)) ∧
        clampCoord 2 ((0 : ℚ) + (-5)) ≤ (2 : ℚ) - 1 - EPS) ∧
     (0 ≤ clampCoord 2 ((0 : ℚ) + 100) ∧
        clampCoord 2 ((0 : ℚ) + 100) ≤ (2 : ℚ) - 1 - EPS) ∧
     (0 ≤ sampleLow 2 ((0 : ℚ) + (-5)) ∧
        sampleLow 2 ((0 : ℚ) + (-5)) + 1 ≤ (2 : ℤ) - 1) ∧
     (0 ≤ sampleLow 2 ((0 : ℚ) + 100) ∧
        sampleLow 2 ((0 : ℚ) + 100) + 1 ≤ (2 : ℤ) - 1)) :=
  ⟨⟨by decide, by decide⟩,
   densify_sample_indices_in_bounds 2 2 (-5) 100 0 0 (by decide) (by decide)⟩

theorem slide_fst_lt_snd (psz pstr dim : ℕ) (hd : psz ≤ dim) :
    ∀ i, (slide psz pstr dim i).1 < (slide psz pstr dim i).2 := by
  have hstep : ∀ (se : ℕ × ℕ) (r : ℕ), se.1 < se.2 →
      (slideStep psz pstr dim se r).1 < (slideStep psz pstr dim se r).2 := by
    intro se r hse
    simp only [slideStep]
    by_cases hC : r % pstr = 0 ∧ r + psz ≤ dim
    · rw [if_pos hC]
      by_cases hS : psz ≤ r ∧ (r - psz) % pstr = 0 ∧ se.1 + 1 < se.2 + 1
      · rw [if_pos hS]; exact hS.2.2
      · rw [if_neg hS]; omega
    · rw [if_neg hC]
      by_cases hS : psz ≤ r ∧ (r - psz) % pstr = 0 ∧ se.1 + 1 < se.2
      · rw [if_pos hS]; exact hS.2.2
      · rw [if_neg hS]; exact hse
  intro i
  induction i with
  | zero =>
    simp only [slide, slideStep]
    have hC : 0 % pstr = 0 ∧ 0 + psz ≤ dim := ⟨Nat.zero_mod _, by omega⟩
    rw [if_pos hC]
    have hS : ¬(psz ≤ 0 ∧ (0 - psz) % pstr = 0 ∧ 0 + 1 < 0 + 1) := by
      rintro ⟨_, _, hlt⟩; omega
    rw [if_neg hS]
    omega
  | succ i ih =>
    simp only [slide]
    exact hstep _ _ ih

theorem densCoef_pos (I0 I1 : ℤ → ℕ) (Sx Sy : ℕ → ℚ) (w h ws i j is js : ℕ) :
    0 < densCoef I0 I1 Sx Sy w h ws i j is js := by
  unfold densCoef
  exact div_pos one_pos (lt_of_lt_of_le one_pos (le_max_left _ _))

/-- Claim C8: with w >= patch_size, h >= patch_size (and a positive stride),
the sliding windows of grid rows and grid columns are never empty at any
pixel, and the accumulated total weight sum_coef is strictly positive, so
CV_DbgAssert(sum_coef != 0) never fires and the division is well defined. -/
theorem densify_window_nonempty_sum_coef_pos (I0 I1 : ℤ → ℕ) (Sx Sy : ℕ → ℚ)
    (w h ws psz pstr i j : ℕ) (hp : 0 < pstr) (hh : psz ≤ h) (hw : psz ≤ w) :
    (slide psz pstr h i).1 < (slide psz pstr h i).2 ∧
    (slide psz pstr w j).1 < (slide psz pstr w j).2 ∧
    0 < densSumCoef I0 I1 Sx Sy w h ws psz pstr i j := by
  have hr := slide_fst_lt_snd psz pstr h hh i
  have hc := slide_fst_lt_snd psz pstr w hw j
  refine ⟨hr, hc, ?_⟩
  unfold densSumCoef densSums
  dsimp only
  apply Finset.sum_pos
  · intro is _
    apply Finset.sum_pos
    · intro js _
      exact densCoef_pos I0 I1 Sx Sy w h ws i j is js
    · exact Finset.nonempty_Ico.mpr hc
  · exact Finset.nonempty_Ico.mpr hr

/-- Witness for C8 at a concrete input (8 x 8 frame, default patch size 8
and stride 4, pixel (0,0), zero images and sparse flow). -/
theorem densify_window_nonempty_sum_coef_pos_witness :
    ((0 < 4) ∧ (8 ≤ 8) ∧ (8 ≤ 8)) ∧
    ((slide 8 4 8 0).1 < (slide 8 4 8 0).2 ∧
     (slide 8 4 8 0).1 < (slide 8 4 8 0).2 ∧
     0 < densSumCoef (fun _ => 0) (fun _ => 0) (fun _ => 0) (fun _ => 0)
          8 8 1 8 4 0 0) :=
  ⟨⟨by decide, by decide, by decide⟩,
   densify_window_nonempty_sum_coef_pos (fun _ => 0) (fun _ => 0)
     (fun _ => 0) (fun _ => 0) 8 8 1 8 4 0 0 (by decide) (by decide) (by decide)⟩

theorem slide_closed (psz pstr dim : ℕ) (hp : 0 < pstr) (hps : pstr ≤ psz)
    (hd : psz ≤ dim) :
    ∀ i, slide psz pstr dim i =
      (min (expCount psz pstr i) ((dim - psz) / pstr),
       min (i / pstr) ((dim - psz) / pstr) + 1) := by
  intro i
  induction i with
  | zero =>
    simp only [slide, slideStep]
    have hC : 0 % pstr = 0 ∧ 0 + psz ≤ dim := ⟨Nat.zero_mod _, by omega⟩
    rw [if_pos hC]
    have hS : ¬(psz ≤ 0 ∧ (0 - psz) % pstr = 0 ∧ 0 + 1 < 0 + 1) := by
      rintro ⟨_, _, hlt⟩; omega
    rw [if_neg hS]
    unfold expCount
    rw [if_pos (by omega : (0 : ℕ) < psz)]
    simp [Nat.zero_div]
  | succ i ih =>
    simp only [slide]
    rw [ih]
    simp only [slideStep]
    set M := (dim - psz) / pstr with hM
    have he : (if (i + 1) % pstr = 0 ∧ (i + 1) + psz ≤ dim
          then min (i / pstr) M + 1 + 1 else min (i / pstr) M + 1) =
        min ((i + 1) / pstr) M + 1 := by
      by_cases hdvd : pstr ∣ (i + 1)
      · have hsd : (i + 1) / pstr = i / pstr + 1 := by
          rw [Nat.succ_div, if_pos hdvd]
        have hmod : (i + 1) % pstr = 0 := Nat.mod_eq_zero_of_dvd hdvd
        by_cases hle : (i + 1) + psz ≤ dim
        · rw [if_pos ⟨hmod, hle⟩]
          have h1 : (i + 1) / pstr ≤ M := by
            rw [hM]; exact Nat.div_le_div_right (by omega)
          omega
        · rw [if_neg (by rintro ⟨_, hcon⟩; exact hle hcon)]
          have h2 : M ≤ i / pstr := by
            rw [hM]; exact Nat.div_le_div_right (by omega)
          omega
      · have hsd : (i + 1) / pstr = i / pstr := by
          rw [Nat.succ_div, if_neg hdvd]
          omega
        have hmod : (i + 1) % pstr ≠ 0 := fun hcon =>
          hdvd (Nat.dvd_of_mod_eq_zero hcon)
        rw [if_neg (by rintro ⟨hcon, _⟩; exact hmod hcon)]
        omega
    rw [he, Prod.mk.injEq]
    refine ⟨?_, rfl⟩
    by_cases hc1 : i + 1 < psz
    · rw [if_neg (by rintro ⟨hcon, _⟩; omega)]
      unfold expCount
      rw [if_pos (by omega : i < psz), if_pos hc1]
    · push_neg at hc1
      by_cases hc2 : psz ≤ i
      · have hk : i + 1 - psz = (i - psz) + 1 := by omega
        have hEi : expCount psz pstr i = (i - psz) / pstr + 1 := by
          unfold expCount; rw [if_neg (by omega)]
        by_cases hdvd2 : pstr ∣ (i - psz) + 1
        · have hE1 : expCount psz pstr (i + 1) = (i - psz) / pstr + 2 := by
            unfold expCount
            rw [if_neg (by omega), hk, Nat.succ_div, if_pos hdvd2]
          have hmod2 : (i + 1 - psz) % pstr = 0 := by
            rw [hk]; exact Nat.mod_eq_zero_of_dvd hdvd2
          have hA : (i - psz) / pstr + 2 ≤ (i + 1) / pstr := by
            rw [Nat.le_div_iff_mul_le hp]
            have hq : (i - psz + 1) / pstr * pstr = i - psz + 1 :=
              Nat.div_mul_cancel hdvd2
            have hsd2 : (i - psz + 1) / pstr = (i - psz) / pstr + 1 := by
              rw [Nat.succ_div, if_pos hdvd2]
            rw [hsd2] at hq
            have he1 : ((i - psz) / pstr + 1) * pstr =
                (i - psz) / pstr * pstr + pstr := by ring
            have he2 : ((i - psz) / pstr + 2) * pstr =
                (i - psz) / pstr * pstr + 2 * pstr := by ring
            omega
          rw [hEi, hE1]
          by_cases hg : min ((i - psz) / pstr + 1) M + 1 <
              min ((i + 1) / pstr) M + 1
          · rw [if_pos ⟨by omega, hmod2, hg⟩]
            omega
          · rw [if_neg (by rintro ⟨_, _, hcon⟩; exact hg hcon)]
            omega
        · have hE1 : expCount psz pstr (i + 1) = expCount psz pstr i := by
            unfold expCount
            rw [if_neg (by omega), if_neg (by omega), hk, Nat.succ_div,
              if_neg hdvd2]
          have hmod2 : (i + 1 - psz) % pstr ≠ 0 := by
            rw [hk]; intro hcon; exact hdvd2 (Nat.dvd_of_mod_eq_zero hcon)
          rw [if_neg (by rintro ⟨_, hcon, _⟩; exact hmod2 hcon), hE1]
      · have hEi : expCount psz pstr i = 0 := by
          unfold expCount; rw [if_pos (by omega)]
        have hz : i + 1 - psz = 0 := by omega
        have hE1 : expCount psz pstr (i + 1) = 1 := by
          unfold expCount
          rw [if_neg (by omega), hz, Nat.zero_div]
        have hmod2 : (i + 1 - psz) % pstr = 0 := by rw [hz, Nat.zero_mod]
        have hdiv1 : 1 ≤ (i + 1) / pstr := by
          rw [Nat.le_div_iff_mul_le hp]; omega
        rw [hEi, hE1]
        by_cases hg : min 0 M + 1 < min ((i + 1) / pstr) M + 1
        · rw [if_pos ⟨by omega, hmod2, hg⟩]
          omega
        · rw [if_neg (by rintro ⟨_, _, hcon⟩; exact hg hcon)]
          omega

theorem window_eq_cover (psz pstr dim : ℕ) (hp : 0 < pstr) (hps : pstr ≤ psz)
    (hd : psz ≤ dim) (i : ℕ) (hne : (coverIdx psz pstr dim i).Nonempty) :
    Finset.Ico (slide psz pstr dim i).1 (slide psz pstr dim i).2 =
      coverIdx psz pstr dim i := by
  obtain ⟨k0, hk0⟩ := hne
  simp only [coverIdx, Finset.mem_filter, Finset.mem_range] at hk0
  obtain ⟨hk0r, hk0a, hk0b, hk0c⟩ := hk0
  rw [slide_closed psz pstr dim hp hps hd i]
  ext k
  simp only [coverIdx, Finset.mem_Ico, Finset.mem_filter, Finset.mem_range]
  set M := (dim - psz) / pstr with hM
  have hk0M : k0 ≤ M := by
    rw [hM, Nat.le_div_iff_mul_le hp]
    omega
  have hk0E : expCount psz pstr i ≤ k0 := by
    unfold expCount
    split_ifs with hlt
    · omega
    · have h6 : (i - psz) / pstr < k0 := by
        rw [Nat.div_lt_iff_lt_mul hp]
        omega
      omega
  constructor
  · rintro ⟨h1, h2⟩
    have hkdiv : k ≤ i / pstr := by omega
    have hkM : k ≤ M := by omega
    have hkp1 : k * pstr ≤ i := (Nat.le_div_iff_mul_le hp).mp hkdiv
    have hkp2 : k * pstr ≤ M * pstr := Nat.mul_le_mul_right _ hkM
    have hMp : M * pstr ≤ dim - psz := by
      rw [hM]; exact Nat.div_mul_le_self _ _
    have hkE : expCount psz pstr i ≤ k := by omega
    have hcov : i < k * pstr + psz := by
      unfold expCount at hkE
      by_cases hlt : i < psz
      · omega
      · rw [if_neg hlt] at hkE
        have h7 : i - psz < k * pstr := by
          have h6 : (i - psz) / pstr < k := by omega
          exact (Nat.div_lt_iff_lt_mul hp).mp h6
        omega
    have hkk : k ≤ k * pstr := by
      calc k = k * 1 := (mul_one k).symm
      _ ≤ k * pstr := Nat.mul_le_mul_left k hp
    exact ⟨by omega, hkp1, hcov, by omega⟩
  · rintro ⟨hr, h2, h3, h4⟩
    have hkdiv : k ≤ i / pstr := (Nat.le_div_iff_mul_le hp).mpr h2
    have hkM : k ≤ M := by
      rw [hM, Nat.le_div_iff_mul_le hp]; omega
    have hkE : expCount psz pstr i ≤ k := by
      unfold expCount
      split_ifs with hlt
      · omega
      · have h6 : (i - psz) / pstr < k := by
          rw [Nat.div_lt_iff_lt_mul hp]; omega
        omega
    omega

/-! ### Claim theorems for densification -/

theorem bilinDiff_zero_frames (w h i j : ℕ) (sx sy : ℚ) :
    bilinDiff (fun _ => 0) (fun _ => 0) w h i j sx sy = 0 := by
  unfold bilinDiff
  simp

theorem densCoef_zero_frames (Sx Sy : ℕ → ℚ) (w h ws i j is js : ℕ) :
    densCoef (fun _ => 0) (fun _ => 0) Sx Sy w h ws i j is js = 1 := by
  unfold densCoef
  rw [bilinDiff_zero_frames]
  norm_num

/-- Evaluation of the densified pixel (8, 0) on the 10 x 8 frame pair of
zero images, constant sparse field (3, 0), patch size 8, stride 4: the
sliding-window state at row 8 is (0, 1) (the guard keeps the single expired
patch), so the output is that patch value. -/
theorem densify_concrete_eval :
    densifyPixel (fun _ => 0) (fun _ => 0) (fun _ => 3) (fun _ => 0)
      8 10 1 8 4 8 0 = (3, 0) := by
  unfold densifyPixel densSums
  have h1 : slide 8 4 10 8 = (0, 1) := by decide
  have h2 : slide 8 4 8 0 = (0, 1) := by decide
  rw [h1, h2]
  have h5 : (Finset.Ico (0 : ℕ) 1) = {0} := by decide
  dsimp only
  rw [h5]
  simp only [Finset.sum_singleton, densCoef_zero_frames]
  norm_num

/-- Evaluation of the claim-side (covering-patches) formula at the same
concrete input: the row cover set is empty, so both sums are empty and the
formula produces 0/0 = 0 in each component. -/
theorem densify_spec_concrete_eval :
    densifyPixel_spec (fun _ => 0) (fun _ => 0) (fun _ => 3) (fun _ => 0)
      8 10 1 8 4 8 0 = (0, 0) := by
  unfold densifyPixel_spec densSums
  have h3 : coverIdx 8 4 10 8 = ∅ := by decide
  rw [h3]
  simp

/-- Claim C6 counterexample: with patch size 8, stride 4, frame 10 rows by
8 columns, pixel (8, 0) is covered by no patch footprint (the row cover set
is empty: the only anchor row is 0 and it covers rows 0..7), yet the code
window still holds the last patch, so the dense output is that patch value
(3, 0) and not the weighted average over covering patches the claim
describes (which is the empty average). -/
theorem densify_clamped_window_counterexample :
    coverIdx 8 4 10 8 = ∅ ∧
    densifyPixel (fun _ => 0) (fun _ => 0) (fun _ => 3) (fun _ => 0)
        8 10 1 8 4 8 0 = (3, 0) ∧
    densifyPixel_spec (fun _ => 0) (fun _ => 0) (fun _ => 3) (fun _ => 0)
        8 10 1 8 4 8 0 = (0, 0) :=
  ⟨by decide, densify_concrete_eval, densify_spec_concrete_eval⟩

/-- Claim C6 amended: provided patch_stride <= patch_size and the pixel
(i, j) is covered by at least one patch footprint in both axes (which holds
at every pixel exactly when the stride divides dim - patch_size for both
dimensions), the densified value at (i, j) is the confidence-weighted
average over exactly the covering patches, with weight 1/max(1, |residual|). -/
theorem densify_eq_spec_on_covered_pixels (I0 I1 : ℤ → ℕ) (Sx Sy : ℕ → ℚ)
    (w h ws psz pstr i j : ℕ) (hp : 0 < pstr) (hps : pstr ≤ psz)
    (hh : psz ≤ h) (hw : psz ≤ w)
    (hri : (coverIdx psz pstr h i).Nonempty)
    (hcj : (coverIdx psz pstr w j).Nonempty) :
    densifyPixel I0 I1 Sx Sy w h ws psz pstr i j =
      densifyPixel_spec I0 I1 Sx Sy w h ws psz pstr i j := by
  unfold densifyPixel densifyPixel_spec
  rw [window_eq_cover psz pstr h hp hps hh i hri,
    window_eq_cover psz pstr w hp hps hw j hcj]

/-- Witness for the amended C6 at a concrete covered pixel. -/
theorem densify_eq_spec_on_covered_pixels_witness :
    ((0 < 4) ∧ (4 ≤ 8) ∧ (8 ≤ 8) ∧ (8 ≤ 8) ∧
      (coverIdx 8 4 8 3).Nonempty ∧ (coverIdx 8 4 8 5).Nonempty) ∧
    densifyPixel (fun _ => 0) (fun _ => 0) (fun _ => 2) (fun _ => 1)
        8 8 1 8 4 3 5 =
      densifyPixel_spec (fun _ => 0) (fun _ => 0) (fun _ => 2) (fun _ => 1)
        8 8 1 8 4 3 5 :=
  ⟨⟨by decide, by decide, by decide, by decide, by decide, by decide⟩,
   densify_eq_spec_on_covered_pixels (fun _ => 0) (fun _ => 0) (fun _ => 2)
     (fun _ => 1) 8 8 1 8 4 3 5 (by decide) (by decide) (by decide)
     (by decide) (by decide) (by decide)⟩

/-- Claim C7 counterexample: at pixel (8, 0) of a 10-row, 8-column frame
(patch size 8, stride 4) no patch footprint covers the pixel, so the premise
that all overlapping patches carry the displacement (7, 0) holds vacuously
for the constant sparse field with value (3, 0); yet the densified output is
(3, 0), not (7, 0). -/
theorem densify_vacuous_overlap_counterexample :
    (∀ a ∈ coverIdx 8 4 10 8, ∀ b ∈ coverIdx 8 4 8 0,
        (fun _ : ℕ => (3 : ℚ)) (a * 1 + b) = 7 ∧
        (fun _ : ℕ => (0 : ℚ)) (a * 1 + b) = 0) ∧
    densifyPixel (fun _ => 0) (fun _ => 0) (fun _ => 3) (fun _ => 0)
        8 10 1 8 4 8 0 ≠ (7, 0) := by
  constructor
  · intro a ha
    have h3 : coverIdx 8 4 10 8 = ∅ := by decide
    rw [h3] at ha
    exact absurd ha (Finset.not_mem_empty a)
  · rw [densify_concrete_eval]
    intro hcon
    rw [Prod.mk.injEq] at hcon
    norm_num at hcon

/-- Claim C7 amended: for a sparse field in which every patch carries the
same displacement (dx, dy), the densified output at every pixel is exactly
(dx, dy), independent of the residual magnitudes (the weights cancel). -/
theorem densify_constant_field_exact (I0 I1 : ℤ → ℕ) (dx dy : ℚ)
    (w h ws psz pstr i j : ℕ) (hp : 0 < pstr) (hh : psz ≤ h) (hw : psz ≤ w) :
    densifyPixel I0 I1 (fun _ => dx) (fun _ => dy) w h ws psz pstr i j =
      (dx, dy) := by
  have hr := slide_fst_lt_snd psz pstr h hh i
  have hc := slide_fst_lt_snd psz pstr w hw j
  unfold densifyPixel densSums
  dsimp only
  have hpos : 0 < ∑ is ∈ Finset.Ico (slide psz pstr h i).1
      (slide psz pstr h i).2, ∑ js ∈ Finset.Ico (slide psz pstr w j).1
      (slide psz pstr w j).2,
      densCoef I0 I1 (fun _ => dx) (fun _ => dy) w h ws i j is js := by
    apply Finset.sum_pos
    · intro is _
      apply Finset.sum_pos
      · intro js _
        exact densCoef_pos I0 I1 (fun _ => dx) (fun _ => dy) w h ws i j is js
      · exact Finset.nonempty_Ico.mpr hc
    · exact Finset.nonempty_Ico.mpr hr
  rw [Prod.mk.injEq]
  constructor
  · simp_rw [← Finset.sum_mul]
    exact mul_div_cancel_left₀ dx (ne_of_gt hpos)
  · simp_rw [← Finset.sum_mul]
    exact mul_div_cancel_left₀ dy (ne_of_gt hpos)

/-- Witness for the amended C7 at a concrete input. -/
theorem densify_constant_field_exact_witness :
    ((0 < 4) ∧ (8 ≤ 10) ∧ (8 ≤ 8)) ∧
    densifyPixel (fun _ => 0) (fun _ => 0) (fun _ => (5 : ℚ))
        (fun _ => (-2 : ℚ)) 8 10 1 8 4 8 0 = (5, -2) :=
  ⟨⟨by decide, by decide, by decide⟩,
   densify_constant_field_exact (fun _ => 0) (fun _ => 0) 5 (-2)
     8 10 1 8 4 8 0 (by decide) (by decide) (by decide)⟩

end DISFlow
